import Mathlib

/-!
Verification of the stock_analysis repository's core subsystems against its
specification: the cache freshness decision and merge (src/data_loader/cache_manager.py),
symbol resolution (src/data_loader/symbol_resolver.py), the investment strategies
(src/strategies/base.py, src/strategies/quadratic_ma.py), the backtest engine
(src/backtest/engine.py) and the summary computation (src/backtest/summary.py).

Modelling conventions:
- calendar dates are proleptic-Gregorian ordinals as in Python's `date.toordinal()`
  (ordinal 1 = 0001-01-01, a Monday), carried as `Int`; Python's `date.weekday()`
  (0 = Monday) is `(d - 1) % 7`;
- times of day are minutes since midnight (the code only compares against the
  whole-minute cutoffs 9:15 and 15:10);
- floats are modelled as `Rat` (exact field arithmetic), except
  `calc_annualized_return`, whose real-exponent power forces `Real`;
- a pandas row is a `PricePoint` record with the optional enrichment columns as
  `Option` fields ("column present" checks become null checks, as the design
  notes of the repository prescribe);
- the `%Y%m%d`-formatted fetch-start string is represented by the date ordinal
  it denotes.
-/

/-- A calendar timestamp as the strategies see it: the ordinal (for ordering and
range filtering), plus the calendar fields `should_invest` reads
(`current_date.year`, `.month`, and `isocalendar()[1]`). -/
structure Date where
  ord : Int
  year : Int
  month : Int
  isoWeek : Int
deriving DecidableEq, Repr, Inhabited

/-- One row of a standardized series: the canonical columns
{date, open, close, high, low, volume} plus the eight optional enrichment
columns, each independently nullable. -/
structure PricePoint where
  date : Date
  open_ : Rat
  close : Rat
  high : Rat
  low : Rat
  volume : Rat
  profit_ratio : Option Rat
  avg_cost : Option Rat
  cost90_low : Option Rat
  cost90_high : Option Rat
  concentration90 : Option Rat
  cost70_low : Option Rat
  cost70_high : Option Rat
  concentration70 : Option Rat
deriving DecidableEq, Repr, Inhabited

/-- Python `date.weekday()` for an ordinal: 0 = Monday … 6 = Sunday. -/
def weekdayOf (d : Int) : Int := (d - 1) % 7

/-- `date(1990, 1, 1).toordinal()` — the epoch `'19900101'` that an empty cache
is refetched from. -/
def epoch19900101 : Int := 726468

/-- CacheManager.check_needs_update (src/data_loader/cache_manager.py).
The function reads from the cached DataFrame only its emptiness, its `date`
column (as `dates`, ascending order not assumed), and whether the
`profit_ratio` column is present (`hasProfitRatio`); `nowDate`/`nowMin` are
`datetime.now()` split into its date and its time of day in minutes. -/
def CacheManager.check_needs_update (dates : List Int) (hasProfitRatio : Bool)
    (request_end_date : Int) (nowDate : Int) (nowMin : Nat)
    (strategy_type : Option String) : Bool × Int :=
  match dates.getLast? with
  | none => (true, epoch19900101)
  | some last_date =>
    -- request_date is clamped to the current date
    let request_date := if request_end_date > nowDate then nowDate else request_end_date
    let fetch_start := last_date - 7
    -- 1. pre-market check: before 09:15 with a cache at most one day old
    if nowMin < 555 ∧ nowDate - last_date ≤ 1 then (false, fetch_start)
    -- 2. weekend check: cache extends to (or past) the most recent Friday
    else if weekdayOf nowDate ≥ 5 ∧ last_date ≥ nowDate - (weekdayOf nowDate - 4) then
      (false, fetch_start)
    -- 3. cache ends before the (clamped) requested end date
    else if last_date < request_date then (true, fetch_start)
    -- 4. intra-session refresh (09:15–15:10) when the cache already has today
    else if 555 < nowMin ∧ nowMin < 910 ∧ last_date = nowDate then (true, fetch_start)
    -- 5. strategy-required column missing
    else if strategy_type = some "profit_ratio" ∧ hasProfitRatio = false then
      (true, fetch_start)
    else (false, fetch_start)

/-- pandas `drop_duplicates(subset=['date'], keep='last')`: a row survives iff
no later row carries the same date (Timestamp equality is ordinal equality). -/
def dedupKeepLast : List PricePoint → List PricePoint
  | [] => []
  | x :: xs =>
    if xs.any (fun y => y.date.ord = x.date.ord) then dedupKeepLast xs
    else x :: dedupKeepLast xs

/-- CacheManager.merge_data (src/data_loader/cache_manager.py): concatenate,
deduplicate by date keeping the later (new) row, sort ascending by date.
After deduplication the dates are unique, so the sort result does not depend
on the sorting algorithm; a stable insertion sort stands in for
`sort_values('date')`. -/
def CacheManager.merge_data (old_df new_df : List PricePoint) : List PricePoint :=
  if old_df = [] then new_df
  else if new_df = [] then old_df
  else List.insertionSort (fun a b => a.date.ord ≤ b.date.ord) (dedupKeepLast (old_df ++ new_df))

/-- Python `str.strip()` on a character sequence: drop leading and trailing
whitespace. Python strings are modelled as their character sequences
(`List Char`), which keeps every string operation kernel-computable. -/
def pyStrip (s : List Char) : List Char :=
  ((s.dropWhile Char.isWhitespace).reverse.dropWhile Char.isWhitespace).reverse

/-- Python `str.split(sep)` for a one-character separator: no collapsing of
empty fields, and the empty string yields `[""]`. -/
def pySplitOn (sep : Char) : List Char → List (List Char)
  | [] => [[]]
  | c :: cs =>
    let rest := pySplitOn sep cs
    if c = sep then [] :: rest
    else (c :: rest.headD []) :: rest.tail

/-- Python `str.upper()` (the symbols in scope are ASCII). -/
def pyUpper (s : List Char) : List Char := s.map Char.toUpper

/-- SymbolResolver.resolve (src/data_loader/symbol_resolver.py). The raised
`ValueError` ("不支持的代码后缀") is modelled as `Except.error` carrying the
offending upper-cased suffix. -/
def SymbolResolver.resolve (symbol : List Char) :
    Except String (List Char × Option (List Char) × Option String) :=
  let symbol_str := pyStrip symbol
  if symbol_str.any (fun c => c = '.') then
    let parts := pySplitOn '.' symbol_str
    let clean_symbol := parts.headD []
    let suffix := pyUpper (parts.getD 1 [])
    if suffix = "OF".data then Except.ok (clean_symbol, some suffix, some "otc_fund")
    else Except.error ("Unsupported suffix: " ++ String.mk suffix)
  else Except.ok (symbol_str, none, none)

/-- should_invest (src/strategies/base.py): empty history never invests; the
first backtest row always invests; otherwise 'D' invests every day, 'M' when
month or year differs from the previous row's date, 'W' when the ISO week
number or the calendar year differs; any other frequency string invests. -/
def should_invest (history_df : List PricePoint) (current_date : Date)
    (freq : String) : Bool :=
  match history_df.reverse with
  | [] => false
  | [_] => true
  | _ :: prevRow :: _ =>
    let f := freq.toUpper
    let prev_date := prevRow.date
    if f = "D" then true
    else if f = "M" then
      decide (current_date.month ≠ prev_date.month ∨ current_date.year ≠ prev_date.year)
    else if f = "W" then
      decide (current_date.isoWeek ≠ prev_date.isoWeek ∨ current_date.year ≠ prev_date.year)
    else true

/-- The `close` of the last row of a history window (`history_df.iloc[-1]['close']`);
0 on an empty window (the call sites guard non-emptiness). -/
def lastClose (history_df : List PricePoint) : Rat :=
  ((history_df.getLast?).getD default).close

/-- `close_series.iloc[-250:].mean()`: the mean of the trailing 250 closes
(call sites guard `250 ≤ length`, so the window has exactly 250 rows). -/
def ma250of (history_df : List PricePoint) : Rat :=
  (((history_df.drop (history_df.length - 250)).map (fun r => r.close)).sum) / 250

/-- QuadraticMAStrategy.get_investment_amount (src/strategies/quadratic_ma.py),
with the constructor parameters (base_amount, freq, k_factor, max_multiplier)
passed explicitly. -/
def QuadraticMAStrategy.get_investment_amount (base_amount : Rat) (freq : String)
    (k_factor max_multiplier : Rat)
    (history_df : List PricePoint) (current_date : Date) : Rat :=
  if ¬ should_invest history_df current_date freq then 0
  else if history_df.length < 250 then base_amount
  else
    let ma250 := ma250of history_df
    let current_price := lastClose history_df
    if current_price < ma250 then
      let d := (ma250 - current_price) / ma250
      let multiplier := 1 + k_factor * d ^ 2
      base_amount * min multiplier max_multiplier
    else base_amount

/-- One row of the DataFrame run_backtest returns. `total_shares` is the
engine's running accumulator, implicit in the source's records; it is carried
here so the ledger invariants can be stated. `extra` holds the
strategy-related passthrough columns, as (column name, value) pairs in the
order the source's loop appends them. -/
structure LedgerRecord where
  date : Date
  total_invested : Rat
  total_shares : Rat
  final_value : Rat
  profit : Rat
  return_rate : Rat
  extra : List (String × Rat)
deriving DecidableEq, Repr, Inhabited

/-- The passthrough block of run_backtest:
`for col in ['profit_ratio', 'avg_cost']: if col in current_row: record[col] = current_row[col]`
("column present" rendered as the field being non-null). -/
def passthroughCols (row : PricePoint) : List (String × Rat) :=
  (match row.profit_ratio with
   | some v => [("profit_ratio", v)]
   | none => []) ++
  (match row.avg_cost with
   | some v => [("avg_cost", v)]
   | none => [])

/-- One iteration of the backtest loop (src/backtest/engine.py, lines 49–82):
`hist ++ [row]` is `df_backtest.iloc[:i+1]`, the strategy is consulted, and on
`amount > 0` the running `total_shares`/`total_invested` absorb the buy; the
emitted record carries the updated state, `current_value = total_shares * close`,
`profit`, and `return_rate` (0 unless `total_invested > 0`). -/
def backtestStep (strat : List PricePoint → Date → Rat) (hist : List PricePoint)
    (row : PricePoint) (total_invested total_shares : Rat) : LedgerRecord :=
  let amount := strat (hist ++ [row]) row.date
  let total_shares' := if amount > 0 then total_shares + amount / row.close else total_shares
  let total_invested' := if amount > 0 then total_invested + amount else total_invested
  let current_value := total_shares' * row.close
  let profit := current_value - total_invested'
  { date := row.date
    total_invested := total_invested'
    total_shares := total_shares'
    final_value := current_value
    profit := profit
    return_rate := if total_invested' > 0 then profit / total_invested' * 100 else 0
    extra := passthroughCols row }

/-- The backtest loop of run_backtest: walks the filtered rows in order,
threading the running `total_invested` and `total_shares` through
`backtestStep`, one record per row. -/
def backtestLoop (strat : List PricePoint → Date → Rat) :
    List PricePoint → List PricePoint → Rat → Rat → List LedgerRecord
  | _, [], _, _ => []
  | hist, row :: rest, total_invested, total_shares =>
    backtestStep strat hist row total_invested total_shares ::
      backtestLoop strat (hist ++ [row]) rest
        (backtestStep strat hist row total_invested total_shares).total_invested
        (backtestStep strat hist row total_invested total_shares).total_shares

/-- The inclusive date mask `(df['date'] >= start_dt) & (df['date'] <= end_dt)`. -/
def inRange (start_dt end_dt : Int) (r : PricePoint) : Bool :=
  decide (start_dt ≤ r.date.ord) && decide (r.date.ord ≤ end_dt)

/-- run_backtest (src/backtest/engine.py). `df = none` is Python's `df is None`;
`start_date`/`end_date` are the outcomes of `pd.to_datetime` (`none` =
unparseable). `none` output is the source's `return None`. -/
def run_backtest (df : Option (List PricePoint)) (start_date end_date : Option Int)
    (strat : List PricePoint → Date → Rat) : Option (List LedgerRecord) :=
  match df with
  | none => none
  | some rows =>
    if rows = [] then none
    else
      match start_date, end_date with
      | some start_dt, some end_dt =>
        let df_backtest := rows.filter (inRange start_dt end_dt)
        if df_backtest = [] then none
        else some (backtestLoop strat [] df_backtest 0 0)
      | _, _ => none

/-- calc_annualized_return (src/backtest/summary.py). The float power is
modelled as the real power; `(final_value / total_invested) ** (1 / years)` has
a positive base in the reachable branch, so Python's `try/except` arm is dead
and is not modelled. -/
noncomputable def calc_annualized_return (total_invested final_value days : ℝ) : ℝ :=
  if total_invested ≤ 0 ∨ final_value ≤ 0 ∨ days ≤ 0 then 0
  else
    let years := days / 365.25
    if years < 0.01 then 0
    else ((final_value / total_invested) ^ (1 / years) - 1) * 100

/-- Pointwise ledger monotonicity between two consecutive records: the
data-model invariant that `total_invested` and `total_shares` never decrease. -/
def ledgerMono (a b : LedgerRecord) : Prop :=
  a.total_invested ≤ b.total_invested ∧ a.total_shares ≤ b.total_shares

/-- A date carrying only its ordinal (the calendar split fields unused by the
scenario at hand are zeroed). -/
def dOrd (o : Int) : Date :=
  { ord := o, year := 0, month := 0, isoWeek := 0 }

/-- A degenerate test row at ordinal `o` with all four prices `c`, no volume
and no enrichment columns. -/
def pp (o : Int) (c : Rat) : PricePoint :=
  { date := dOrd o, open_ := c, close := c, high := c, low := c, volume := 0
    profit_ratio := none, avg_cost := none
    cost90_low := none, cost90_high := none, concentration90 := none
    cost70_low := none, cost70_high := none, concentration70 := none }

/-- A test row carrying enrichment values, including one of the
non-passthrough chip-distribution columns. -/
def ppEnriched : PricePoint :=
  { pp 0 1 with profit_ratio := some 1, avg_cost := some 2, cost90_low := some 3 }

/-- First ledger record of the fixed-100 strategy on `[pp 0 1, pp 1 (-1)]`:
buy 100 at close 1. -/
def cexR0 : LedgerRecord :=
  { date := dOrd 0, total_invested := 100, total_shares := 100
    final_value := 100, profit := 0, return_rate := 0, extra := [] }

/-- Second ledger record of the same run: a further 100 at close −1 wipes the
share count (shares += 100 / (−1)). -/
def cexR1 : LedgerRecord :=
  { date := dOrd 1, total_invested := 200, total_shares := 0
    final_value := 0, profit := -200, return_rate := -100, extra := [] }

/-- The single ledger record of the always-skip strategy on one row: nothing
invested, everything zero. -/
def zeroRec : LedgerRecord :=
  { date := dOrd 0, total_invested := 0, total_shares := 0
    final_value := 0, profit := 0, return_rate := 0, extra := [] }

/-- The single ledger record of the always-skip strategy on the enriched row:
nothing invested, but the two passthrough columns copied. -/
def enrichedRec : LedgerRecord :=
  { date := dOrd 0, total_invested := 0, total_shares := 0
    final_value := 0, profit := 0, return_rate := 0
    extra := [("profit_ratio", 1), ("avg_cost", 2)] }

/-! ## Cache freshness (C1, C2) -/

/-- C1, counterexample. With the cache ending today (a Wednesday, ordinal
738895), the clock at 16:00 (after the session), and the requested end date
tomorrow, neither the pre-session-open check nor the weekend check applies and
the cached last date is strictly earlier than the requested end date — yet
check_needs_update answers `needsUpdate = false`, because it clamps the
request date to the current date before the comparison. -/
theorem check_needs_update_future_end_cex :
    CacheManager.check_needs_update [738895] true 738896 738895 960 none = (false, 738888) ∧
    ¬ (960 < 555 ∧ (738895 : Int) - 738895 ≤ 1) ∧
    ¬ (weekdayOf 738895 ≥ 5 ∧ (738895 : Int) ≥ 738895 - (weekdayOf 738895 - 4)) ∧
    (738895 : Int) < 738896 := by
  refine ⟨rfl, by decide, by decide, by decide⟩

/-- C1, amended: for a non-empty cached series, when the pre-session-open and
weekend checks do not apply, if the cached last date is strictly earlier than
the *effective* end date — the requested end date clamped to the current date,
i.e. `min requestedEnd today` — then check_needs_update returns
`needsUpdate = true` with `fetchStartDate` = cached last date minus 7 days. -/
theorem check_needs_update_stale_updates
    (dates : List Int) (hasPR : Bool) (req nowD : Int) (nowMin : Nat)
    (st : Option String) (last : Int)
    (hlast : dates.getLast? = some last)
    (hpre : ¬ (nowMin < 555 ∧ nowD - last ≤ 1))
    (hwk : ¬ (weekdayOf nowD ≥ 5 ∧ last ≥ nowD - (weekdayOf nowD - 4)))
    (hstale : last < min req nowD) :
    CacheManager.check_needs_update dates hasPR req nowD nowMin st = (true, last - 7) := by
  obtain ⟨h1, h2⟩ := lt_min_iff.mp hstale
  unfold CacheManager.check_needs_update
  rw [hlast]
  simp only [if_neg hpre, if_neg hwk]
  have hlt : last < (if req > nowD then nowD else req) := by
    by_cases hc : req > nowD
    · rw [if_pos hc]; exact h2
    · rw [if_neg hc]; exact h1
  rw [if_pos hlt]

/-- C1, witness: a Wednesday mid-morning with a 15-day-old cache and the end
date equal to today yields an update fetching from 7 days before the cache
end. -/
theorem check_needs_update_stale_updates_witness :
    CacheManager.check_needs_update [738880] true 738895 738895 600 none = (true, 738873) :=
  check_needs_update_stale_updates [738880] true 738895 738895 600 none 738880
    rfl (by decide) (by decide) (by decide)

/-- C2, counterexample. With `strategy_type = 'profit_ratio'` and the
profit_ratio column absent, a pre-session-open call (08:00) with the cache
ending today is answered `needsUpdate = false`: the session heuristics
short-circuit before the required-column check, so the column's absence does
not force an update at every current time. -/
theorem check_needs_update_missing_column_cex :
    CacheManager.check_needs_update [738895] false 738895 738895 480 (some "profit_ratio") =
      (false, 738888) := rfl

/-- C2, amended: for a non-empty cached series with
`strategy_type = 'profit_ratio'` and the profit_ratio column absent from the
cached schema, check_needs_update returns `needsUpdate = true` for every
requested end date, provided neither the pre-session-open check nor the
weekend check applies (those two short-circuit first, by design). -/
theorem check_needs_update_missing_column_updates
    (dates : List Int) (req nowD : Int) (nowMin : Nat) (last : Int)
    (hlast : dates.getLast? = some last)
    (hpre : ¬ (nowMin < 555 ∧ nowD - last ≤ 1))
    (hwk : ¬ (weekdayOf nowD ≥ 5 ∧ last ≥ nowD - (weekdayOf nowD - 4))) :
    CacheManager.check_needs_update dates false req nowD nowMin (some "profit_ratio") =
      (true, last - 7) := by
  unfold CacheManager.check_needs_update
  rw [hlast]
  simp only [if_neg hpre, if_neg hwk]
  split_ifs <;> simp_all

/-- C2, witness: a Wednesday at 10:00 with the cache already ending today but
the profit_ratio column missing still triggers an update. -/
theorem check_needs_update_missing_column_updates_witness :
    CacheManager.check_needs_update [738895] false 738895 738895 600 (some "profit_ratio") =
      (true, 738888) :=
  check_needs_update_missing_column_updates [738895] 738895 738895 600 738895
    rfl (by decide) (by decide)

/-! ## Merge idempotence (C3) -/

/-- Unfolding equation of `dedupKeepLast` on a cons cell. -/
theorem dedupKeepLast_cons (x : PricePoint) (xs : List PricePoint) :
    dedupKeepLast (x :: xs) =
      if xs.any (fun y => y.date.ord = x.date.ord) then dedupKeepLast xs
      else x :: dedupKeepLast xs := rfl

/-- Dropping duplicates keeping the last occurrence ignores a prefix all of
whose dates reappear in the suffix. -/
theorem dedupKeepLast_append_absorb (A B : List PricePoint)
    (h : ∀ x ∈ A, B.any (fun y => y.date.ord = x.date.ord) = true) :
    dedupKeepLast (A ++ B) = dedupKeepLast B := by
  induction A with
  | nil => rfl
  | cons x A ih =>
    have hx : (A ++ B).any (fun y => y.date.ord = x.date.ord) = true := by
      rw [List.any_append, h x (List.mem_cons_self x A), Bool.or_true]
    rw [List.cons_append, dedupKeepLast_cons, if_pos hx]
    exact ih fun y hy => h y (List.mem_cons_of_mem x hy)

/-- On a list with pairwise distinct dates, keep-last deduplication is the
identity. -/
theorem dedupKeepLast_of_pairwise_ne (S : List PricePoint)
    (h : S.Pairwise (fun a b => a.date.ord ≠ b.date.ord)) :
    dedupKeepLast S = S := by
  induction S with
  | nil => rfl
  | cons x S ih =>
    have hnone : S.any (fun y => y.date.ord = x.date.ord) = false := by
      rw [List.any_eq_false]
      intro y hy
      simpa using (List.pairwise_cons.mp h).1 y hy |>.symm
    rw [List.pairwise_cons] at h
    simp only [dedupKeepLast, hnone, Bool.false_eq_true, if_false]
    rw [ih h.2]

/-- C3: merge is idempotent — for every TimeSeries S whose dates are strictly
increasing (hence unique), merge_data S S = S: the first copy is entirely
absorbed by keep-last deduplication and the sort leaves the already-sorted
survivor untouched. -/
theorem merge_data_idempotent (S : List PricePoint)
    (hS : List.Chain' (fun a b => a.date.ord < b.date.ord) S) :
    CacheManager.merge_data S S = S := by
  by_cases hemp : S = []
  · subst hemp; rfl
  · haveI : IsTrans PricePoint (fun a b => a.date.ord < b.date.ord) :=
      ⟨fun _ _ _ h1 h2 => lt_trans h1 h2⟩
    have hpw : S.Pairwise (fun a b => a.date.ord < b.date.ord) :=
      List.chain'_iff_pairwise.mp hS
    unfold CacheManager.merge_data
    rw [if_neg hemp, if_neg hemp,
      dedupKeepLast_append_absorb S S
        (fun x hx => List.any_eq_true.mpr ⟨x, hx, by simp⟩),
      dedupKeepLast_of_pairwise_ne S (hpw.imp fun hab => ne_of_lt hab),
      List.Sorted.insertionSort_eq (hpw.imp fun hab => le_of_lt hab)]

/-- C3, witness: merging a concrete two-row series with itself returns it
unchanged. -/
theorem merge_data_idempotent_witness :
    CacheManager.merge_data [pp 0 1, pp 1 2] [pp 0 1, pp 1 2] = [pp 0 1, pp 1 2] :=
  merge_data_idempotent [pp 0 1, pp 1 2] (List.Chain.cons (by decide) List.Chain.nil)

/-! ## QuadraticMADeviation sizing (C4) -/

/-- C4: on an investment day, the QuadraticMADeviation amount is `baseAmount`
whenever the history holds fewer than 250 samples; with at least 250 samples
and the current close below MA250 (the mean of the trailing 250 closes) it is
`baseAmount * min (1 + k * D^2) maxMultiplier` with
`D = (MA250 - current) / MA250`; with the current close at or above MA250 it
is `baseAmount` (multiplier ×1). -/
theorem quadratic_ma_amount (base_amount : Rat) (freq : String)
    (k_factor max_multiplier : Rat) (history_df : List PricePoint) (current_date : Date)
    (hinv : should_invest history_df current_date freq = true) :
    (history_df.length < 250 →
      QuadraticMAStrategy.get_investment_amount base_amount freq k_factor max_multiplier
        history_df current_date = base_amount) ∧
    (250 ≤ history_df.length →
      (lastClose history_df < ma250of history_df →
        QuadraticMAStrategy.get_investment_amount base_amount freq k_factor max_multiplier
          history_df current_date =
        base_amount *
          min (1 + k_factor * ((ma250of history_df - lastClose history_df) / ma250of history_df) ^ 2)
            max_multiplier) ∧
      (ma250of history_df ≤ lastClose history_df →
        QuadraticMAStrategy.get_investment_amount base_amount freq k_factor max_multiplier
          history_df current_date = base_amount)) := by
  unfold QuadraticMAStrategy.get_investment_amount
  rw [hinv]
  simp only [not_true, if_false]
  refine ⟨fun hshort => if_pos hshort, fun hlong => ⟨fun hbelow => ?_, fun habove => ?_⟩⟩
  · rw [if_neg (not_lt.mpr hlong), if_pos hbelow]
  · rw [if_neg (not_lt.mpr hlong), if_neg (not_lt.mpr habove)]

/-- C4, witness: a one-row history on an investment day (first backtest row)
returns exactly the base amount. -/
theorem quadratic_ma_amount_witness :
    QuadraticMAStrategy.get_investment_amount 100 "D" 30 5 [pp 0 10] (dOrd 0) = 100 :=
  (quadratic_ma_amount 100 "D" 30 5 [pp 0 10] (dOrd 0) (by decide)).1 (by decide)

/-! ## Backtest engine invariants (C5, C6, C7, C10) -/

/-- A step never decreases the running invested total. -/
theorem backtestStep_invested_le (strat : List PricePoint → Date → Rat)
    (hist : List PricePoint) (row : PricePoint) (ti ts : Rat) :
    ti ≤ (backtestStep strat hist row ti ts).total_invested := by
  unfold backtestStep
  dsimp only
  split
  · linarith [le_of_lt (by assumption : (0 : Rat) < strat (hist ++ [row]) row.date)]
  · exact le_refl ti

/-- With a positive close, a step never decreases the running share total. -/
theorem backtestStep_shares_le (strat : List PricePoint → Date → Rat)
    (hist : List PricePoint) (row : PricePoint) (ti ts : Rat) (hclose : 0 < row.close) :
    ts ≤ (backtestStep strat hist row ti ts).total_shares := by
  unfold backtestStep
  dsimp only
  split
  · have hdiv : 0 < strat (hist ++ [row]) row.date / row.close :=
      div_pos (by assumption) hclose
    linarith
  · exact le_refl ts

/-- A record with nothing invested reports a return rate of exactly 0. -/
theorem backtestStep_return_rate_zero (strat : List PricePoint → Date → Rat)
    (hist : List PricePoint) (row : PricePoint) (ti ts : Rat)
    (hzero : (backtestStep strat hist row ti ts).total_invested = 0) :
    (backtestStep strat hist row ti ts).return_rate = 0 := by
  unfold backtestStep at hzero ⊢
  dsimp only at hzero ⊢
  rw [if_neg]
  rw [hzero]
  exact lt_irrefl 0

/-- The passthrough block only ever copies the two columns
`profit_ratio` and `avg_cost`. -/
theorem passthroughCols_keys (row : PricePoint) :
    ∀ kv ∈ passthroughCols row, kv.1 = "profit_ratio" ∨ kv.1 = "avg_cost" := by
  intro kv hkv
  unfold passthroughCols at hkv
  rcases List.mem_append.mp hkv with h | h <;>
    [cases hpr : row.profit_ratio; cases hac : row.avg_cost] <;>
    simp_all

/-- The loop's ledger, from any starting state whose pending rows all have
positive closes, is a `ledgerMono` chain, and its first record dominates the
starting state. -/
theorem backtestLoop_chain (strat : List PricePoint → Date → Rat) :
    ∀ (pending hist : List PricePoint) (ti ts : Rat),
      (∀ r ∈ pending, 0 < r.close) →
      List.Chain' ledgerMono (backtestLoop strat hist pending ti ts) ∧
      ∀ rec ∈ (backtestLoop strat hist pending ti ts).head?,
        ti ≤ rec.total_invested ∧ ts ≤ rec.total_shares := by
  intro pending
  induction pending with
  | nil =>
    intro hist ti ts _
    exact ⟨List.chain'_nil, by simp [backtestLoop]⟩
  | cons row rest ih =>
    intro hist ti ts h
    have hrow : 0 < row.close := h row (List.mem_cons_self row rest)
    have hrest : ∀ r ∈ rest, 0 < r.close := fun r hr => h r (List.mem_cons_of_mem row hr)
    obtain ⟨ihchain, ihhead⟩ :=
      ih (hist ++ [row])
        (backtestStep strat hist row ti ts).total_invested
        (backtestStep strat hist row ti ts).total_shares hrest
    constructor
    · rw [backtestLoop, List.chain'_cons']
      exact ⟨fun y hy => ihhead y hy, ihchain⟩
    · intro rec hrec
      rw [backtestLoop] at hrec
      simp only [List.head?_cons, Option.mem_def, Option.some.injEq] at hrec
      subst hrec
      exact ⟨backtestStep_invested_le strat hist row ti ts,
        backtestStep_shares_le strat hist row ti ts hrow⟩

/-- Every record of the loop's ledger satisfies the zero-invested rule and the
passthrough restriction. -/
theorem backtestLoop_record_properties (strat : List PricePoint → Date → Rat) :
    ∀ (pending hist : List PricePoint) (ti ts : Rat) (rec : LedgerRecord),
      rec ∈ backtestLoop strat hist pending ti ts →
      (rec.total_invested = 0 → rec.return_rate = 0) ∧
      ∀ kv ∈ rec.extra, kv.1 = "profit_ratio" ∨ kv.1 = "avg_cost" := by
  intro pending
  induction pending with
  | nil => intro hist ti ts rec hrec; cases hrec
  | cons row rest ih =>
    intro hist ti ts rec hrec
    rw [backtestLoop] at hrec
    rcases List.mem_cons.mp hrec with hstep | htail
    · subst hstep
      refine ⟨backtestStep_return_rate_zero strat hist row ti ts, ?_⟩
      intro kv hkv
      have hextra : (backtestStep strat hist row ti ts).extra = passthroughCols row := rfl
      rw [hextra] at hkv
      exact passthroughCols_keys row kv hkv
    · exact ih (hist ++ [row]) _ _ rec htail

/-- The loop emits exactly one record per pending row, carrying its date. -/
theorem backtestLoop_dates (strat : List PricePoint → Date → Rat) :
    ∀ (pending hist : List PricePoint) (ti ts : Rat),
      (backtestLoop strat hist pending ti ts).map (fun rec => rec.date) =
        pending.map (fun r => r.date) := by
  intro pending
  induction pending with
  | nil => intro hist ti ts; rfl
  | cons row rest ih =>
    intro hist ti ts
    rw [backtestLoop, List.map_cons, List.map_cons, ih]
    rfl

/-- Unfolding equation of run_backtest for parseable bounds and a present
DataFrame. -/
theorem run_backtest_some_unfold (rows : List PricePoint) (sv ev : Int)
    (strat : List PricePoint → Date → Rat) :
    run_backtest (some rows) (some sv) (some ev) strat =
      if rows = [] then none
      else if rows.filter (inRange sv ev) = [] then none
      else some (backtestLoop strat [] (rows.filter (inRange sv ev)) 0 0) := rfl

/-- Unfolding equation of run_backtest when the start bound is unparseable. -/
theorem run_backtest_start_none_unfold (rows : List PricePoint) (e : Option Int)
    (strat : List PricePoint → Date → Rat) :
    run_backtest (some rows) none e strat = if rows = [] then none else none := rfl

/-- Unfolding equation of run_backtest when the end bound is unparseable. -/
theorem run_backtest_end_none_unfold (rows : List PricePoint) (sv : Int)
    (strat : List PricePoint → Date → Rat) :
    run_backtest (some rows) (some sv) none strat = if rows = [] then none else none := rfl




/-- C5, counterexample. On the two-row series with closes 1 and −1 and a
strategy that always invests 100, run_backtest produces a ledger whose
accumulated total_shares drops from 100 to 0 (shares += 100 / (−1)): the
claimed monotonicity does not hold for every input series. -/
theorem run_backtest_shares_not_monotone_cex :
    run_backtest (some [pp 0 1, pp 1 (-1)]) (some 0) (some 1) (fun _ _ => 100) =
      some [cexR0, cexR1] ∧ ¬ ledgerMono cexR0 cexR1 :=
  ⟨by norm_num [run_backtest_some_unfold, backtestLoop, backtestStep, passthroughCols,
      pp, dOrd, cexR0, cexR1, inRange, List.cons_ne_nil],
   fun h => absurd h.2 (by norm_num [cexR0, cexR1])⟩

/-- C5, amended: for every input series and strategy, provided every close
price in the filtered date range is positive (the spec's own §4.6/§7
data-quality precondition), the ledger produced by run_backtest has
non-decreasing total_invested and total_shares from each record to the next. -/
theorem run_backtest_ledger_monotone (rows : List PricePoint) (start_dt end_dt : Int)
    (strat : List PricePoint → Date → Rat) (l : List LedgerRecord)
    (hpos : ∀ r ∈ rows.filter (inRange start_dt end_dt), 0 < r.close)
    (hrun : run_backtest (some rows) (some start_dt) (some end_dt) strat = some l) :
    List.Chain' ledgerMono l := by
  rw [run_backtest_some_unfold] at hrun
  split_ifs at hrun with h1 h2
  obtain rfl := Option.some.inj hrun
  exact (backtestLoop_chain strat (rows.filter (inRange start_dt end_dt)) [] 0 0 hpos).1

/-- C5, witness: a concrete positive-close run yields a monotone ledger. -/
theorem run_backtest_ledger_monotone_witness :
    List.Chain' ledgerMono [cexR0] :=
  run_backtest_ledger_monotone [pp 0 1] 0 1 (fun _ _ => 100) [cexR0]
    (by norm_num [pp, dOrd, inRange])
    (by norm_num [run_backtest_some_unfold, backtestLoop, backtestStep, passthroughCols,
      pp, dOrd, cexR0, inRange, List.cons_ne_nil])

/-- C6: in every ledger record produced by run_backtest, a zero total_invested
forces a return_rate of exactly 0. -/
theorem run_backtest_zero_invested (rows : List PricePoint) (start_dt end_dt : Int)
    (strat : List PricePoint → Date → Rat) (l : List LedgerRecord) (rec : LedgerRecord)
    (hrun : run_backtest (some rows) (some start_dt) (some end_dt) strat = some l)
    (hmem : rec ∈ l) (hzero : rec.total_invested = 0) : rec.return_rate = 0 := by
  rw [run_backtest_some_unfold] at hrun
  split_ifs at hrun with h1 h2
  obtain rfl := Option.some.inj hrun
  exact (backtestLoop_record_properties strat (rows.filter (inRange start_dt end_dt))
    [] 0 0 rec hmem).1 hzero

/-- C6, witness: the always-skip strategy's single record has zero invested
and reports a zero return rate. -/
theorem run_backtest_zero_invested_witness : zeroRec.return_rate = 0 :=
  run_backtest_zero_invested [pp 0 1] 0 0 (fun _ _ => 0) [zeroRec] zeroRec
    (by norm_num [run_backtest_some_unfold, backtestLoop, backtestStep, passthroughCols,
      pp, dOrd, zeroRec, inRange, List.cons_ne_nil])
    (by simp) rfl

/-- C7: run_backtest returns the distinct "no result" outcome `none` — never
an empty ledger — exactly when the input series is missing or empty, a bound
is unparseable, or the inclusive-range slice is empty; otherwise it returns a
ledger with one record per in-range row (same dates, in order). -/
theorem run_backtest_none_iff (df : Option (List PricePoint)) (s e : Option Int)
    (strat : List PricePoint → Date → Rat) :
    (run_backtest df s e strat = none ↔
      df.getD [] = [] ∨ s = none ∨ e = none ∨
        (df.getD []).filter (inRange (s.getD 0) (e.getD 0)) = []) ∧
    ∀ l, run_backtest df s e strat = some l →
      l.map (fun rec => rec.date) =
        ((df.getD []).filter (inRange (s.getD 0) (e.getD 0))).map (fun r => r.date) := by
  rcases df with _ | rows
  · exact ⟨by simp [run_backtest], fun l hl => by simp [run_backtest] at hl⟩
  rcases s with _ | sv
  · refine ⟨?_, fun l hl => ?_⟩
    · rw [run_backtest_start_none_unfold, ite_self]
      simp
    · rw [run_backtest_start_none_unfold, ite_self] at hl
      exact Option.noConfusion hl
  rcases e with _ | ev
  · refine ⟨?_, fun l hl => ?_⟩
    · rw [run_backtest_end_none_unfold, ite_self]
      simp
    · rw [run_backtest_end_none_unfold, ite_self] at hl
      exact Option.noConfusion hl
  refine ⟨?_, fun l hl => ?_⟩
  · rw [run_backtest_some_unfold]
    split_ifs with h1 h2 <;> simp_all
  · rw [run_backtest_some_unfold] at hl
    split_ifs at hl with h1 h2
    obtain rfl := Option.some.inj hl
    simpa using backtestLoop_dates strat (rows.filter (inRange sv ev)) [] 0 0

/-- C7, witness: on a concrete one-row series the produced ledger has exactly
the slice's dates. -/
theorem run_backtest_none_iff_witness :
    ([zeroRec] : List LedgerRecord).map (fun rec => rec.date) =
      (([pp 0 1] : List PricePoint).filter (inRange 0 0)).map (fun r => r.date) :=
  (run_backtest_none_iff (some [pp 0 1]) (some 0) (some 0) (fun _ _ => 0)).2
    [zeroRec] (by norm_num [run_backtest_some_unfold, backtestLoop, backtestStep,
      passthroughCols, pp, dOrd, zeroRec, inRange, List.cons_ne_nil])

/-- C10: ledger records carry at most the two enrichment passthrough columns
profit_ratio and avg_cost; none of the six other enrichment columns ever
appears in a record's passthrough data, whatever the input series holds. -/
theorem run_backtest_enrichment_passthrough (rows : List PricePoint)
    (start_dt end_dt : Int) (strat : List PricePoint → Date → Rat)
    (l : List LedgerRecord) (rec : LedgerRecord)
    (hrun : run_backtest (some rows) (some start_dt) (some end_dt) strat = some l)
    (hmem : rec ∈ l) :
    (∀ kv ∈ rec.extra, kv.1 = "profit_ratio" ∨ kv.1 = "avg_cost") ∧
    ∀ c ∈ (["cost90_low", "cost90_high", "concentration90",
            "cost70_low", "cost70_high", "concentration70"] : List String),
      ∀ kv ∈ rec.extra, kv.1 ≠ c := by
  rw [run_backtest_some_unfold] at hrun
  split_ifs at hrun with h1 h2
  obtain rfl := Option.some.inj hrun
  have hkeys := (backtestLoop_record_properties strat
    (rows.filter (inRange start_dt end_dt)) [] 0 0 rec hmem).2
  refine ⟨hkeys, fun c hc kv hkv => ?_⟩
  rcases hkeys kv hkv with h | h <;> rw [h] <;> intro hEq <;> rw [← hEq] at hc <;>
    simp at hc

/-- C10, witness: a row carrying profit_ratio, avg_cost and cost90_low yields
a record whose passthrough pair ("profit_ratio", 1) is, in particular, not the
cost90_low column. -/
theorem run_backtest_enrichment_passthrough_witness :
    ("profit_ratio", (1 : Rat)).1 ≠ "cost90_low" :=
  (run_backtest_enrichment_passthrough [ppEnriched] 0 0 (fun _ _ => 0)
      [enrichedRec] enrichedRec
      (by norm_num [run_backtest_some_unfold, backtestLoop, backtestStep, passthroughCols,
        ppEnriched, pp, dOrd, enrichedRec, inRange, List.cons_ne_nil])
      (by simp)).2
    "cost90_low" (by simp) ("profit_ratio", 1) (by simp [enrichedRec])

/-! ## Annualized return (C8) -/

/-- C8: calc_annualized_return is exactly 0 whenever total_invested ≤ 0, or
final_value ≤ 0, or days ≤ 0, or days/365.25 < 0.01, and otherwise equals
((final_value/total_invested)^(1/(days/365.25)) − 1) × 100. -/
theorem calc_annualized_return_spec (total_invested final_value days : ℝ) :
    calc_annualized_return total_invested final_value days =
      if total_invested ≤ 0 ∨ final_value ≤ 0 ∨ days ≤ 0 ∨ days / 365.25 < 0.01 then 0
      else ((final_value / total_invested) ^ (1 / (days / 365.25)) - 1) * 100 := by
  unfold calc_annualized_return
  by_cases h1 : total_invested ≤ 0 ∨ final_value ≤ 0 ∨ days ≤ 0
  · rw [if_pos h1, if_pos (h1.imp id (fun h => h.imp id Or.inl))]
  · rw [if_neg h1]
    dsimp only
    by_cases h2 : days / 365.25 < 0.01
    · rw [if_pos h2, if_pos (Or.inr (Or.inr (Or.inr h2)))]
    · have hno : ¬ (total_invested ≤ 0 ∨ final_value ≤ 0 ∨ days ≤ 0 ∨
          days / 365.25 < 0.01) := by
        rintro (ha | hb | hc | hd)
        · exact h1 (Or.inl ha)
        · exact h1 (Or.inr (Or.inl hb))
        · exact h1 (Or.inr (Or.inr hc))
        · exact h2 hd
      rw [if_neg h2, if_neg hno]

/-! ## Symbol resolution (C9) -/

/-- C9: resolve returns (cleanSymbol, "OF", otc_fund hint) when the (stripped)
symbol carries the off-exchange-fund dot-qualifier, case-insensitively (the
component after the first dot upper-cases to "OF"); it fails with the
unsupported-suffix error for any other dot-qualifier; it returns
(symbol, none, none) when there is no dot; and that failure is the only error
path. -/
theorem resolve_spec (symbol : List Char) :
    ((pyStrip symbol).any (fun c => c = '.') = true →
      pyUpper ((pySplitOn '.' (pyStrip symbol)).getD 1 []) = "OF".data →
      SymbolResolver.resolve symbol =
        Except.ok ((pySplitOn '.' (pyStrip symbol)).headD [], some "OF".data, some "otc_fund")) ∧
    ((pyStrip symbol).any (fun c => c = '.') = true →
      pyUpper ((pySplitOn '.' (pyStrip symbol)).getD 1 []) ≠ "OF".data →
      SymbolResolver.resolve symbol =
        Except.error ("Unsupported suffix: " ++
          String.mk (pyUpper ((pySplitOn '.' (pyStrip symbol)).getD 1 [])))) ∧
    ((pyStrip symbol).any (fun c => c = '.') = false →
      SymbolResolver.resolve symbol = Except.ok (pyStrip symbol, none, none)) ∧
    ((∃ msg, SymbolResolver.resolve symbol = Except.error msg) ↔
      (pyStrip symbol).any (fun c => c = '.') = true ∧
        pyUpper ((pySplitOn '.' (pyStrip symbol)).getD 1 []) ≠ "OF".data) := by
  unfold SymbolResolver.resolve
  by_cases hdot : (pyStrip symbol).any (fun c => c = '.') = true
  · by_cases hOF : pyUpper ((pySplitOn '.' (pyStrip symbol)).getD 1 []) = "OF".data
    · refine ⟨fun _ _ => ?_, fun _ hne => absurd hOF hne, fun hfalse => ?_, ?_⟩
      · rw [if_pos hdot, if_pos hOF, hOF]
      · rw [hfalse] at hdot; exact Bool.noConfusion hdot
      · rw [if_pos hdot, if_pos hOF]
        constructor
        · rintro ⟨msg, hmsg⟩; exact Except.noConfusion hmsg
        · rintro ⟨_, hne⟩; exact absurd hOF hne
    · refine ⟨fun _ hof => absurd hof hOF, fun _ _ => ?_, fun hfalse => ?_, ?_⟩
      · rw [if_pos hdot, if_neg hOF]
      · rw [hfalse] at hdot; exact Bool.noConfusion hdot
      · rw [if_pos hdot, if_neg hOF]
        exact ⟨fun _ => ⟨hdot, hOF⟩, fun _ => ⟨_, rfl⟩⟩
  · have hdot' : (pyStrip symbol).any (fun c => c = '.') = false :=
      Bool.not_eq_true _ ▸ Bool.of_not_eq_true hdot
    refine ⟨fun htrue _ => ?_, fun htrue _ => ?_, fun _ => ?_, ?_⟩
    · exact absurd htrue hdot
    · exact absurd htrue hdot
    · rw [if_neg hdot]
    · rw [if_neg hdot]
      constructor
      · rintro ⟨msg, hmsg⟩; exact Except.noConfusion hmsg
      · rintro ⟨htrue, _⟩; exact absurd htrue hdot

/-- C9, witness: the three concrete resolutions from the spec's test table. -/
theorem resolve_spec_witness :
    SymbolResolver.resolve "000300.OF".data =
      Except.ok ("000300".data, some "OF".data, some "otc_fund") ∧
    SymbolResolver.resolve "600519".data = Except.ok ("600519".data, none, none) ∧
    SymbolResolver.resolve "600519.SH".data =
      Except.error ("Unsupported suffix: " ++ String.mk "SH".data) :=
  ⟨by have h := (resolve_spec "000300.OF".data).1 (by decide) (by decide)
      rw [h]; rfl,
   by have h := (resolve_spec "600519".data).2.2.1 (by decide)
      rw [h]; rfl,
   by have h := (resolve_spec "600519.SH".data).2.1 (by decide) (by decide)
      rw [h]; rfl⟩
